import Mathlib

/-!
Verification of the Friendantial scoring core.

This file gives a shallow embedding, over exact rationals, of the
feature/indicator computation, cross-sectional normalization, strategy-weighted
scoring, presentation scaling and the two-pass recommendation workflow of the
repository (`app/core/scoring.py`, `app/core/strategies.py`,
`app/core/presentation.py`, `app/services/analysis.py`), and proves the frozen
claims about them.

Modelling conventions:
* floats are modelled as exact rationals `ℚ`; IEEE NaN (from missing rolling
  windows, `min_periods` masking, or `0/0`) is modelled as `none : Option ℚ`;
* pandas dataframes are modelled as lists of row structures, columns as
  index-wise functions over the list;
* pandas statistical kernels that are real-valued (`Series.std`, a square
  root) are supplied as an explicit parameter of the workflow environment —
  their numeric value feeds only into score magnitudes, never into any
  control-flow that the claims are about.
-/

namespace Friendantial

/-- Truncation toward zero of a rational, the behaviour of Python `int(...)`
on a finite float. -/
def truncQ (q : ℚ) : ℤ := if q < 0 then -⌊-q⌋ else ⌊q⌋

/-- Arithmetic mean of a list of rationals (`pandas.Series.mean`); `0` on the
empty list (where pandas would give NaN — unreachable in the claims). -/
def listMean (xs : List ℚ) : ℚ := xs.sum / xs.length

/-- Sample variance with `n - 1` denominator, the square of
`pandas.Series.std(ddof=1)`; `0` for lists of length at most one. -/
def sampleVar (xs : List ℚ) : ℚ :=
  if xs.length ≤ 1 then 0
  else (xs.map (fun x => (x - listMean xs) ^ 2)).sum / ((xs.length : ℚ) - 1)

/-- Nearest integer with ties to even, the idealization of Python `round` on
exact rationals. -/
def roundHalfEven (q : ℚ) : ℤ :=
  if q - ⌊q⌋ < 1 / 2 then ⌊q⌋
  else if q - ⌊q⌋ > 1 / 2 then ⌊q⌋ + 1
  else if ⌊q⌋ % 2 = 0 then ⌊q⌋ else ⌊q⌋ + 1

/-- Python `round(x, nd)` on exact rationals. -/
def roundTo (nd : Nat) (q : ℚ) : ℚ := (roundHalfEven (q * 10 ^ nd) : ℚ) / 10 ^ nd

/-- Left-pad a digit string with zeros to the given width. -/
def padZeros (nd : Nat) (s : String) : String :=
  String.mk (List.replicate (nd - s.length) '0') ++ s

/-- Fixed-point decimal formatting, the idealization of a Python
format specifier with `nd` decimal places on exact rationals. -/
def fmtFixed (nd : Nat) (q : ℚ) : String :=
  let r := roundHalfEven (q * 10 ^ nd)
  let sign := if r < 0 then "-" else ""
  let a := r.natAbs
  if nd = 0 then sign ++ toString a
  else sign ++ toString (a / 10 ^ nd) ++ "." ++ padZeros nd (toString (a % 10 ^ nd))

/-- Substring containment, Python `pat in hay` on strings. -/
def containsText (hay pat : String) : Bool := (hay.splitOn pat).length ≥ 2

/-- Configuration record `FeatureConf` of `app/schemas/models.py`
(pydantic defaults 5 / 20 / 60 / 5e9). -/
structure FeatureConf where
  mom_short : Nat := 5
  mom_med : Nat := 20
  mom_long : Nat := 60
  min_turnover_won : ℚ := 5000000000
  deriving DecidableEq

/-- One raw OHLCV row of the fetched dataframe. -/
structure OhlcvRow where
  openPrice : ℚ := 0
  high : ℚ := 0
  low : ℚ := 0
  close : ℚ := 0
  volume : ℚ := 0
  value_traded : ℚ := 0
  deriving DecidableEq

/-- One row of a featured dataframe: the columns read by `score_stock` and the
strategies.  `none` models a missing column entry (NaN); the momentum columns
`mom{w}` are indexed by their window `w`. -/
structure FeatRow where
  close : Option ℚ := none
  value_traded : Option ℚ := none
  ret1 : Option ℚ := none
  ma5 : Option ℚ := none
  ma20 : Option ℚ := none
  ma60 : Option ℚ := none
  avg_vol20 : Option ℚ := none
  mom : Nat → Option ℚ := fun _ => none
  rsi : Option ℚ := none
  atr : Option ℚ := none
  atr_ratio : Option ℚ := none

instance : Inhabited FeatRow := ⟨{}⟩

/-- The `momentum` dictionary of a `StockScore` (keys m5/m20/m60/rsi). -/
structure Momentum where
  m5 : ℚ
  m20 : ℚ
  m60 : ℚ
  rsi : ℚ
  deriving DecidableEq

/-- `StockScore` of `app/schemas/models.py`. -/
structure StockScore where
  code : String
  name : String
  score : ℚ
  reason : String
  momentum : Momentum
  news_sentiment_score : Option ℚ := none
  price : ℚ := 0
  deriving DecidableEq

/-- One entry of the `details` list of a sentiment payload. -/
structure NewsSentimentDetail where
  title : String
  label : String
  confidence : ℚ
  deriving DecidableEq

/-- `NewsSentiment` of `app/schemas/models.py` (pydantic model: `summary` and
`details` only — the raw dictionary's `score` key is dropped by validation). -/
structure NewsSentiment where
  summary : String
  details : List NewsSentimentDetail
  deriving DecidableEq

/-- The raw dictionary produced by `analyze_news_sentiment`
(`score` / `summary` / `details`). -/
structure NewsData where
  score : ℚ
  summary : String
  details : List NewsSentimentDetail
  deriving DecidableEq

/-- `RecoItem` of `app/schemas/models.py`. -/
structure RecoItem where
  code : String
  name : String
  score : ℚ
  stars : ℤ
  weight : ℚ
  price : ℚ := 0
  reason : String
  momentum : Momentum
  news_sentiment : Option NewsSentiment := none
  deriving DecidableEq

/-- `RecoResponse` of `app/schemas/models.py`. -/
structure RecoResponse where
  as_of : String
  candidates : List RecoItem
  deriving DecidableEq

/-! Embedding of `app/core/scoring.py`. -/

/-- One-day differences `series.diff(1)`; the leading NaN entry is recorded as
`0` because both consumers wrap it in `delta.where(...)`, which maps it to `0`
(`NaN > 0` and `NaN < 0` are false). -/
def deltas : List ℚ → List ℚ
  | [] => []
  | c => 0 :: List.zipWith (fun p cur => cur - p) c c.tail

/-- `gain = delta.where(delta > 0, 0)`. -/
def gains (closes : List ℚ) : List ℚ := (deltas closes).map (fun d => max d 0)

/-- `loss = -delta.where(delta < 0, 0)`. -/
def losses (closes : List ℚ) : List ℚ := (deltas closes).map (fun d => max (-d) 0)

/-- Scan realizing the pandas `ewm(alpha=α, adjust=False).mean()` recurrence
`y[t] = (1-α)·y[t-1] + α·x[t]` from a given accumulator. -/
def ewmScan (α acc : ℚ) : List ℚ → List ℚ
  | [] => [acc]
  | x :: xs => acc :: ewmScan α ((1 - α) * acc + α * x) xs

/-- `Series.ewm(alpha=α, adjust=False).mean()` over a NaN-free series: the
recurrence starts at the first sample (`y[0] = x[0]`).  The `min_periods`
masking of early outputs is applied by the callers. -/
def ewmAdjustFalse (α : ℚ) : List ℚ → List ℚ
  | [] => []
  | x :: xs => ewmScan α x xs

/-- Final division of the RSI formula under IEEE semantics:
`0/0` is NaN (`none`); `g/0` with `g > 0` is `+∞`, making
`100 - 100/(1 + ∞) = 100`. -/
def rsiOfAvg (g l : ℚ) : Option ℚ :=
  if l = 0 then (if g = 0 then none else some 100)
  else some (100 - 100 / (1 + g / l))

/-- `compute_rsi` of `app/core/scoring.py`: Wilder RSI via
`ewm(alpha=1/period, min_periods=period, adjust=False)`; entries with fewer
than `period` observations are NaN-masked. -/
def compute_rsi (closes : List ℚ) (period : Nat := 14) : List (Option ℚ) :=
  let avg_gain := ewmAdjustFalse (1 / (period : ℚ)) (gains closes)
  let avg_loss := ewmAdjustFalse (1 / (period : ℚ)) (losses closes)
  (List.range closes.length).map fun t =>
    if t + 1 < period then none
    else rsiOfAvg (avg_gain.getD t 0) (avg_loss.getD t 0)

/-- True ranges `max(high-low, |high-prev_close|, |low-prev_close|)`; at the
first row the two `prev_close` terms are NaN and the row-wise `max` skips
them, leaving `high - low`. -/
def trueRanges : List OhlcvRow → List ℚ
  | [] => []
  | r :: rs =>
    (r.high - r.low) ::
      List.zipWith
        (fun p cur => max (cur.high - cur.low) (max |cur.high - p.close| |cur.low - p.close|))
        (r :: rs) rs

/-- `compute_atr` of `app/core/scoring.py`. -/
def compute_atr (df : List OhlcvRow) (period : Nat := 14) : List (Option ℚ) :=
  let a := ewmAdjustFalse (1 / (period : ℚ)) (trueRanges df)
  (List.range df.length).map fun t =>
    if t + 1 < period then none else some (a.getD t 0)

/-- Trailing simple mean `Series.rolling(w).mean()` at index `t`
(`none` until the window fills). -/
def rollMean (w : Nat) (xs : List ℚ) (t : Nat) : Option ℚ :=
  if w ≤ t + 1 then some (((xs.drop (t + 1 - w)).take w).sum / w) else none

/-- `Series.pct_change(w, fill_method=None)` at index `t`; `none` both for the
leading NaN entries and for a zero base value (where floats would give ±∞ or
NaN). -/
def pctChangeAt (xs : List ℚ) (w t : Nat) : Option ℚ :=
  if w ≤ t then
    if xs.getD (t - w) 0 = 0 then none
    else some (xs.getD t 0 / xs.getD (t - w) 0 - 1)
  else none

/-- Row `t` of the dataframe produced by `compute_features`. -/
def featRowAt (df : List OhlcvRow) (conf : FeatureConf) (t : Nat) : FeatRow :=
  let n := df.length
  let closes := df.map (·.close)
  let volumes := df.map (·.volume)
  let rsiCol := compute_rsi closes 14
  let atrCol := compute_atr df 14
  { close := some (closes.getD t 0)
    value_traded := some ((df.map (·.value_traded)).getD t 0)
    ret1 := pctChangeAt closes 1 t
    ma5 := rollMean 5 closes t
    ma20 := rollMean 20 closes t
    ma60 := rollMean 60 closes t
    avg_vol20 := rollMean 20 volumes t
    mom := fun w =>
      if w = conf.mom_short ∨ w = conf.mom_med ∨ w = conf.mom_long then
        pctChangeAt closes w t
      else none
    rsi := if n > 20 then rsiCol.getD t none else some 50
    atr := if n > 20 then atrCol.getD t none else none
    atr_ratio :=
      if n > 20 then
        (atrCol.getD t none).bind fun a =>
          if closes.getD t 0 = 0 then none else some (a / closes.getD t 0)
      else some 0 }

/-- `compute_features` of `app/core/scoring.py`: returns/moving averages,
volume average, momentum columns and — only when the series has more than 20
rows — the Wilder RSI/ATR columns, with the constant fallbacks `rsi = 50.0`,
`atr_ratio = 0.0` otherwise (in which case no `atr` column is created). -/
def compute_features (df : List OhlcvRow) (conf : FeatureConf) : List FeatRow :=
  (List.range df.length).map (featRowAt df conf)

/-- The guarded z-score expression `(x - mean) / std if std > 0 else 0.0`
shared by `calculate_z_scores` and `_perform_final_scoring`. -/
def guardedZ (x mean std : ℚ) : ℚ := if 0 < std then (x - mean) / std else 0

/-- `calculate_z_scores` of `app/core/scoring.py`; the statistics dictionary is
keyed by momentum window. -/
def calculate_z_scores (features : FeatRow) (mom_stats : List (Nat × ℚ × ℚ)) :
    List (Nat × ℚ) :=
  mom_stats.map fun s => (s.1, guardedZ ((features.mom s.1).getD 0) s.2.1 s.2.2)

/-- Dictionary read `z.get(key, 0.0)` on a z-score association list. -/
def zLookup (z : List (Nat × ℚ)) (w : Nat) : ℚ := (z.lookup w).getD 0

/-! Embedding of `app/core/strategies.py` and the constants of
`app/config.py` (environment defaults). -/

def RSI_OVERSOLD : ℚ := 30

def RSI_OVERBOUGHT : ℚ := 70

def RSI_STRONG_OVERBOUGHT : ℚ := 80

/-- A strategy: the `STRATEGY_CONFIG` data plus the two behaviours
(`calculate_rsi_bonus` and `check_ma_penalty`). -/
structure Strategy where
  mom_weights : ℚ × ℚ × ℚ
  vol_penalty_weight : ℚ
  news_impact_factor : ℚ
  rsiBonusFn : ℚ → ℚ
  maPenaltyFn : ℚ → FeatRow → ℚ × List String

/-- `DayTraderStrategy`: the `prev_data.get("ma5", float("inf"))` default makes
the comparison true when the column is missing. -/
def dayTraderStrategy : Strategy where
  mom_weights := (0.5, 0.2, 0.0)
  vol_penalty_weight := 0.2
  news_impact_factor := 0.4
  rsiBonusFn := fun rsi =>
    if rsi < RSI_OVERSOLD then 2.0 else if rsi > RSI_OVERBOUGHT then -1.0 else 0.0
  maPenaltyFn := fun last_close prev =>
    match prev.ma5 with
    | none => (0.5, ["5일선 이탈"])
    | some m => if last_close < m then (0.5, ["5일선 이탈"]) else (0.0, [])

/-- `LongTermStrategy`. -/
def longTermStrategy : Strategy where
  mom_weights := (0.1, 0.3, 0.6)
  vol_penalty_weight := 1.5
  news_impact_factor := 0.1
  rsiBonusFn := fun rsi =>
    if rsi < RSI_OVERSOLD ∨ rsi > RSI_OVERBOUGHT then -0.5 else 0.0
  maPenaltyFn := fun last_close prev =>
    match prev.ma60 with
    | none => (1.0, ["장기 추세 훼손"])
    | some m => if last_close < m then (1.0, ["장기 추세 훼손"]) else (0.0, [])

/-- `DefaultStrategy`. -/
def defaultStrategy : Strategy where
  mom_weights := (0.4, 0.3, 0.3)
  vol_penalty_weight := 0.5
  news_impact_factor := 0.2
  rsiBonusFn := fun rsi =>
    if rsi < RSI_OVERSOLD then 0.5 else if rsi > RSI_STRONG_OVERBOUGHT then -0.5 else 0.0
  maPenaltyFn := fun _ _ => (0.0, [])

/-- `get_strategy`: name lookup with silent fallback to the default. -/
def get_strategy (strategy_name : String) : Strategy :=
  if strategy_name = "day_trader" then dayTraderStrategy
  else if strategy_name = "long_term" then longTermStrategy
  else defaultStrategy

/-- The second-to-last row `df.iloc[-2]` of a featured dataframe. -/
def prevRow (df : List FeatRow) : FeatRow := df.getD (df.length - 2) {}

/-- Turnover threshold of `score_stock`:
`conf.min_turnover_won * 1.5 if market_regime == "BEAR" else conf.min_turnover_won`. -/
def minTurnoverOf (conf : FeatureConf) (market_regime : String) : ℚ :=
  if market_regime = "BEAR" then conf.min_turnover_won * 1.5 else conf.min_turnover_won

/-- `score_stock` of `app/core/scoring.py`. -/
def score_stock (code name : String) (df : List FeatRow) (mom_z_scores : List (Nat × ℚ))
    (news_score : Option ℚ) (volatility_score : ℚ) (conf : FeatureConf)
    (market_regime : String := "NEUTRAL") (strategy : String := "default") :
    Option StockScore :=
  if df.length < conf.mom_long + 2 then none
  else
    let prev := prevRow df
    let last_close := prev.close.getD 0
    let rsi := prev.rsi.getD 50
    let atr_ratio := prev.atr_ratio.getD 0
    if prev.value_traded.getD 0 < minTurnoverOf conf market_regime then none
    else
      let strategy_impl := get_strategy strategy
      let rsi_bonus := strategy_impl.rsiBonusFn rsi
      let mp := strategy_impl.maPenaltyFn last_close prev
      let ma_penalty := mp.1
      let warnings := mp.2
      let gap_bonus : ℚ := 0
      let z5 := zLookup mom_z_scores conf.mom_short
      let z20 := zLookup mom_z_scores conf.mom_med
      let z60 := zLookup mom_z_scores conf.mom_long
      let mom_core := strategy_impl.mom_weights.1 * z5 +
        strategy_impl.mom_weights.2.1 * z20 + strategy_impl.mom_weights.2.2 * z60
      let atr_penalty := max 0 ((atr_ratio - 0.03) * 10)
      let final_vol_penalty :=
        strategy_impl.vol_penalty_weight * volatility_score + atr_penalty * 0.5
      let score := mom_core - final_vol_penalty +
        strategy_impl.news_impact_factor * news_score.getD 0 - ma_penalty +
        gap_bonus + rsi_bonus
      let reason_parts :=
        ["mom=" ++ fmtFixed 2 mom_core, "vol_p=" ++ fmtFixed 2 final_vol_penalty,
         "rsi=" ++ fmtFixed 0 rsi]
      let reason_parts := reason_parts ++ (if 0 < rsi_bonus then ["RSI보너스"] else [])
      let reason_parts := reason_parts ++ (if 0 < ma_penalty then ["MA이탈"] else [])
      let reason := String.intercalate ", " reason_parts
      let reason :=
        if warnings ≠ [] then
          reason ++ " [주의: " ++ String.intercalate ", " warnings ++ "]"
        else reason
      some
        { code := code
          name := name
          score := roundTo 2 score
          reason := reason
          momentum :=
            { m5 := roundTo 4 ((prev.mom conf.mom_short).getD 0)
              m20 := roundTo 4 ((prev.mom conf.mom_med).getD 0)
              m60 := roundTo 4 ((prev.mom conf.mom_long).getD 0)
              rsi := roundTo 2 (prev.rsi.getD 50) }
          news_sentiment_score := news_score.map (roundTo 3)
          price := last_close }

/-! Embedding of `app/core/presentation.py`. -/

/-- `generate_friendly_reason`: two clauses selected by the m5 and RSI bands.
The inner quotation marks of the source strings are left out. -/
def generate_friendly_reason (stock_score : StockScore) : String :=
  let m5 := stock_score.momentum.m5
  let rsi := stock_score.momentum.rsi
  let p1 :=
    if m5 > 0.15 then "최근 주가가 급등하여 기세가 아주 강하며,"
    else if m5 > 0.05 then "탄탄한 상승 추세를 이어가고 있으며,"
    else if m5 > 0 then "완만한 상승 흐름을 보이는 가운데,"
    else "단기적으로 조정을 받고 있으나,"
  let p2 :=
    if rsi ≥ 80 then
      "RSI(" ++ fmtFixed 0 rsi ++ ")가 초과열권이라 매도 압력이 커질 수 있어 주의가 필요합니다."
    else if rsi ≥ 70 then
      "RSI(" ++ fmtFixed 0 rsi ++ ")가 과열권에 진입해 잠시 쉬어갈 수 있습니다."
    else if rsi ≤ 30 then
      "RSI(" ++ fmtFixed 0 rsi ++ ")가 침체권이라 기술적 반등이 기대되는 자리입니다."
    else
      "과열되지 않은 건전한 수급(RSI " ++ fmtFixed 0 rsi ++ ")을 유지하고 있습니다."
  p1 ++ " " ++ p2

/-- Textual representation `str(item.news_sentiment)` of the pydantic model, as
far as the substring test can see it: the numeric `confidence` fields cannot
contain the Hangul marker phrase, so only the textual fields are kept. -/
def strOfNewsSentiment (ns : NewsSentiment) : String :=
  "summary=" ++ ns.summary ++ " details=" ++
    String.intercalate " " (ns.details.map (fun d => d.title ++ " " ++ d.label))

/-- `calculate_stock_stars` of `app/core/presentation.py`. -/
def calculate_stock_stars (item : RecoItem) (market_regime : String) : ℤ :=
  let score := item.score
  let rsi := item.momentum.rsi
  let thresholds : List ℚ :=
    if market_regime = "BULL" then [60, 70, 80, 90]
    else if market_regime = "NEUTRAL" then [65, 75, 85, 95]
    else if market_regime = "BEAR" then [70, 80, 90, 97]
    else [65, 75, 85, 95]
  let stars : ℤ :=
    if score ≥ thresholds.getD 3 0 then 5
    else if score ≥ thresholds.getD 2 0 then 4
    else if score ≥ thresholds.getD 1 0 then 3
    else if score ≥ thresholds.getD 0 0 then 2
    else 1
  let stars := if rsi ≥ 80 then min stars 4 else stars
  let stars := if rsi ≥ 90 then min stars 3 else stars
  let stars :=
    if (item.news_sentiment.map
          (fun ns => containsText (strOfNewsSentiment ns) "강력한 악재")).getD false then
      min stars 3
    else stars
  stars

/-- Cap computation of `scale_to_100`: 100, reduced to 80 in a BEAR regime,
further clamped to at most 50 when the best raw score is negative. -/
def scoreCapOf (market_regime : String) (max_raw : ℚ) : ℤ :=
  let score_cap : ℤ := if market_regime = "BEAR" then 80 else 100
  if max_raw < 0 then min score_cap 50 else score_cap

/-- Piecewise display map of `scale_to_100`: the lowest fifth of the
normalized range is stretched over [0, 60], the rest over [60, 100]. -/
def displayMap (normalized : ℚ) : ℚ :=
  if normalized < 0.2 then normalized / 0.2 * 60
  else 60 + (normalized - 0.2) / 0.8 * 40

/-- `scale_to_100` of `app/core/presentation.py`; Python `int(...)` is
truncation toward zero. -/
def scale_to_100 (score min_raw max_raw : ℚ) (market_regime : String) : ℤ :=
  if max_raw = min_raw then 50
  else
    let normalized := (score - min_raw) / (max_raw - min_raw)
    truncQ (displayMap normalized * ((scoreCapOf market_regime max_raw : ℚ) / 100))

/-! Embedding of `app/services/analysis.py`.  The HTTP/universe/news/database
collaborators are environment parameters; `pandas.Series.std` (a real-valued
square root whose value feeds only into score magnitudes) is likewise an
explicit function parameter. -/

/-- Stable insertion step for a descending sort keyed by `key`: a new element
goes in front of the first element whose key is not larger, so that elements
arriving earlier in the input stay in front of equal-key elements. -/
def insertDesc {α : Type} (key : α → ℚ) (x : α) : List α → List α
  | [] => [x]
  | y :: ys => if key x ≥ key y then x :: y :: ys else y :: insertDesc key x ys

/-- The stable descending sort `list.sort(key=..., reverse=True)` of Python
(stability is part of the language's sort contract). -/
def sortDesc {α : Type} (key : α → ℚ) : List α → List α
  | [] => []
  | x :: xs => insertDesc key x (sortDesc key xs)

/-- Python `min` over a list of rationals (guarded nonempty by the callers). -/
def listMinQ : List ℚ → ℚ
  | [] => 0
  | x :: xs => xs.foldl min x

/-- Python `max` over a list of rationals (guarded nonempty by the callers). -/
def listMaxQ : List ℚ → ℚ
  | [] => 0
  | x :: xs => xs.foldl max x

/-- Pydantic validation of the raw sentiment dictionary into the
`NewsSentiment` model: the extra `score` key is dropped. -/
def toNewsSentiment (nd : NewsData) : NewsSentiment :=
  { summary := nd.summary, details := nd.details }

/-- `AnalysisService._prepare_response`: scale the raw scores against the
shortlist's own min/max, build display items, compute stars, sort (stable,
descending), keep the top `n` and spread weight `1/len(top)` over them.  On an
empty input it returns an empty response. -/
def prepareResponse (raw_scored_stocks : List StockScore) (n : Nat)
    (market_regime : String) (with_news : Bool)
    (news_data_map : String → Option NewsData) (as_of : String) : RecoResponse :=
  if raw_scored_stocks = [] then { as_of := as_of, candidates := [] }
  else
    let all_raw_scores := raw_scored_stocks.map (·.score)
    let min_raw := listMinQ all_raw_scores
    let max_raw := listMaxQ all_raw_scores
    let scored := raw_scored_stocks.map fun s =>
      let temp : RecoItem :=
        { code := s.code
          name := s.name
          score := (scale_to_100 s.score min_raw max_raw market_regime : ℚ)
          stars := 0
          weight := 0
          price := s.price
          reason := generate_friendly_reason s
          momentum := s.momentum
          news_sentiment :=
            if with_news then (news_data_map s.code).map toNewsSentiment else none }
      { temp with stars := calculate_stock_stars temp market_regime }
    let top := (sortDesc (·.score) scored).take n
    { as_of := as_of
      candidates := top.map fun item => { item with weight := 1 / (top.length : ℚ) } }

/-- The value `features_map[c]["ret1"].rolling(20).std().iloc[-2]`: the sample
standard deviation of the 20-entry `ret1` window ending at the second-to-last
row, delegated to the abstract `pdStd` kernel. -/
def volValAt (pdStd : List (Option ℚ) → ℚ) (feat : List FeatRow) : ℚ :=
  pdStd (((feat.map (·.ret1)).take (feat.length - 1)).drop (feat.length - 21))

/-- Final-pass score for one shortlisted code: the body of the per-code loop
of `_perform_final_scoring` (the shortlist statistics are recomputed from the
full `codes` list, exactly as in the source). -/
def finalScoreFor (codes : List String)
    (features_map : List (String × List FeatRow))
    (news_data_map : String → Option NewsData) (mom_stats : List (Nat × ℚ × ℚ))
    (code_to_name : String → Option String) (conf : FeatureConf)
    (market_regime : String) (strategy : String)
    (pdStd : List (Option ℚ) → ℚ) (c : String) : Option StockScore :=
  let news_scores := codes.map fun c => ((news_data_map c).map (·.score)).getD 0
  let vol_scores := codes.map fun c => volValAt pdStd ((features_map.lookup c).getD [])
  let news_mean := listMean news_scores
  let news_std := pdStd (news_scores.map some)
  let vol_mean := listMean vol_scores
  let vol_std := pdStd (vol_scores.map some)
  let feat := (features_map.lookup c).getD []
  let n_score := ((news_data_map c).map (·.score)).getD 0
  let n_z := guardedZ n_score news_mean news_std
  let v_z := guardedZ (volValAt pdStd feat) vol_mean vol_std
  let z := calculate_z_scores (prevRow feat) mom_stats
  score_stock c ((code_to_name c).getD c) feat z (some n_z) v_z conf
    market_regime strategy

/-- `AnalysisService._perform_final_scoring`: normalize the sentiment scores
and realized volatilities over the shortlist only, then re-score every
shortlisted code with all signals. -/
def performFinalScoring (codes : List String)
    (features_map : List (String × List FeatRow))
    (news_data_map : String → Option NewsData) (mom_stats : List (Nat × ℚ × ℚ))
    (code_to_name : String → Option String) (conf : FeatureConf)
    (market_regime : String) (strategy : String)
    (pdStd : List (Option ℚ) → ℚ) : List StockScore :=
  codes.filterMap (finalScoreFor codes features_map news_data_map mom_stats
    code_to_name conf market_regime strategy pdStd)

/-- The external collaborators of one `_run_analysis_workflow` invocation:
universe codes and names, fetched OHLCV data, the market regime, the sentiment
payloads, and the abstract `pandas.Series.std` kernel. -/
structure WorkflowEnv where
  codes : List String
  names : String → Option String
  data : String → Option (List OhlcvRow)
  market_regime : String
  n : Nat := 5
  with_news : Bool := true
  strategy : String := "day_trader"
  news_data_map : String → Option NewsData
  pdStd : List (Option ℚ) → ℚ
  as_of : String

/-- Featured dataframe for one fetched code, when its series is nonempty with
at least `mom_long + 2` rows (the admission test of workflow step 3). -/
def featFor (env : WorkflowEnv) (conf : FeatureConf) (code : String) :
    Option (List FeatRow) :=
  match env.data code with
  | none => none
  | some df =>
    if df ≠ [] ∧ conf.mom_long + 2 ≤ df.length then
      some (compute_features df conf)
    else none

/-- Step 3 of the workflow: featured dataframes for every fetched security
with a nonempty series of at least `mom_long + 2` rows. -/
def featuresMapOf (env : WorkflowEnv) (conf : FeatureConf) :
    List (String × List FeatRow) :=
  env.codes.filterMap fun code => (featFor env conf code).map fun f => (code, f)

/-- Step 3 of the workflow: universe momentum statistics `(mean, std)` per
momentum window, taken at the second-to-last row of every featured security. -/
def momStatsOf (env : WorkflowEnv) (conf : FeatureConf) : List (Nat × ℚ × ℚ) :=
  let fm := featuresMapOf env conf
  [conf.mom_short, conf.mom_med, conf.mom_long].map fun w =>
    let vals := fm.map fun cf => ((prevRow cf.2).mom w).getD 0
    (w, listMean vals, env.pdStd (vals.map some))

/-- Step 4 of the workflow: the first (momentum-only) scoring pass, with
`news_score = 0.0` and `volatility_score = 0.0`. -/
def preScoredStocks (env : WorkflowEnv) (conf : FeatureConf) : List StockScore :=
  let stats := momStatsOf env conf
  (featuresMapOf env conf).filterMap fun cf =>
    let z := calculate_z_scores (prevRow cf.2) stats
    score_stock cf.1 ((env.names cf.1).getD cf.1) cf.2 z (some 0) 0 conf
      env.market_regime env.strategy

/-- The shortlist: codes of the top 20 of the stable descending pre-sort. -/
def preSelectedCodes (env : WorkflowEnv) (conf : FeatureConf) : List String :=
  ((sortDesc (·.score) (preScoredStocks env conf)).take 20).map (·.code)

/-- Step 6 of the workflow: the second (final) scoring pass over the
shortlist. -/
def finalScoredStocks (env : WorkflowEnv) (conf : FeatureConf) : List StockScore :=
  performFinalScoring (preSelectedCodes env conf) (featuresMapOf env conf)
    (if env.with_news then env.news_data_map else fun _ => none)
    (momStatsOf env conf) env.names conf env.market_regime env.strategy env.pdStd

/-- Detail message of the HTTP 503 raised when no security is scorable. -/
def noScorableMsg : String := "채점 가능한 종목이 없습니다."

/-- `AnalysisService._run_analysis_workflow` (steps 3 to 7; fetch, regime and
sentiment are environment inputs, persistence is external): an empty first
scoring pass raises HTTP 503, otherwise the final response is prepared from
the second pass. -/
def runAnalysisWorkflow (env : WorkflowEnv) : Except String RecoResponse :=
  let conf : FeatureConf := {}
  if preScoredStocks env conf = [] then .error noScorableMsg
  else
    .ok (prepareResponse (finalScoredStocks env conf) env.n env.market_regime
      env.with_news (if env.with_news then env.news_data_map else fun _ => none)
      env.as_of)

/-! Specification-side definitions.  `wilderSeededAvg` renders the smoothing
recurrence exactly as the spec sentence behind claim C1 words it: seeded by
the simple mean of the first `period` samples (`avg[period-1]` is that mean)
and `avg[t] = avg[t-1]·(1-1/period) + x[t]·(1/period)` afterwards.  It is the
comparison point for the pandas `adjust=False` scan actually used by the
code. -/

def wilderSeededAvg (period : Nat) (xs : List ℚ) : Nat → ℚ
  | 0 => (xs.take period).sum / period
  | t + 1 =>
    if t + 2 ≤ period then (xs.take period).sum / period
    else wilderSeededAvg period xs t * (1 - 1 / (period : ℚ)) +
      xs.getD (t + 1) 0 * (1 / (period : ℚ))

/-- The RSI value claim C1 asserts for row `t`: the RSI formula applied to the
simple-average-seeded Wilder recurrence over the gain/loss samples. -/
def rsiWilderSpec (closes : List ℚ) (t : Nat) : Option ℚ :=
  rsiOfAvg (wilderSeededAvg 14 (gains closes) t) (wilderSeededAvg 14 (losses closes) t)

/-- A concrete 21-row close series with both gains and losses (alternating
steps of −9 and +11). -/
def cexCloses : List ℚ :=
  [105, 96, 107, 98, 109, 100, 111, 102, 113, 104, 115, 106, 117, 108, 119, 110,
   121, 112, 123, 114, 125]

/-- A 21-row OHLCV frame carrying `cexCloses` as its close column. -/
def cexDf : List OhlcvRow := cexCloses.map fun c => { close := c }

/-- The star ladder plus risk caps exactly as the sentences behind claim C6
word them: the regime table BULL [60,70,80,90], NEUTRAL [65,75,85,95],
BEAR [70,80,90,97] (NEUTRAL for unknown regimes) maps the score to 1–5 stars,
then the result is capped at 4 when RSI ≥ 80, at 3 when RSI ≥ 90, and at 3
when the sentiment payload carries the strong-negative marker. -/
def starsLadderSpec (item : RecoItem) (market_regime : String) : ℤ :=
  let cuts : List ℚ :=
    if market_regime = "BULL" then [60, 70, 80, 90]
    else if market_regime = "BEAR" then [70, 80, 90, 97]
    else [65, 75, 85, 95]
  let ladder : ℤ :=
    if item.score ≥ cuts.getD 3 0 then 5
    else if item.score ≥ cuts.getD 2 0 then 4
    else if item.score ≥ cuts.getD 1 0 then 3
    else if item.score ≥ cuts.getD 0 0 then 2
    else 1
  let capRsi80 : ℤ := if item.momentum.rsi ≥ 80 then 4 else 5
  let capRsi90 : ℤ := if item.momentum.rsi ≥ 90 then 3 else 5
  let capNews : ℤ :=
    if (item.news_sentiment.map
          (fun ns => containsText (strOfNewsSentiment ns) "강력한 악재")).getD false then 3
    else 5
  min (min (min ladder capRsi80) capRsi90) capNews

/-- Concrete display item for witnesses: very high score, overheated RSI. -/
def c6Item : RecoItem :=
  { code := "000001.KS", name := "teststock", score := 200, stars := 0, weight := 0,
    price := 100, reason := "", momentum := { m5 := 0, m20 := 0, m60 := 0, rsi := 95 },
    news_sentiment := none }

/-- Concrete raw score record for witnesses. -/
def w9Stock : StockScore :=
  { code := "000002.KS", name := "teststock2", score := 3, reason := "",
    momentum := { m5 := 0, m20 := 0, m60 := 0, rsi := 50 },
    news_sentiment_score := none, price := 10 }

/-- One flat OHLCV row (every close equal to 100, turnover 6e9). -/
def flatRow : OhlcvRow :=
  { openPrice := 100, high := 100, low := 100, close := 100, volume := 1000,
    value_traded := 6000000000 }

/-! Helper lemmas about the pandas `adjust=False` exponential scan. -/

theorem length_ewmScan (α acc : ℚ) (xs : List ℚ) :
    (ewmScan α acc xs).length = xs.length + 1 := by
  induction xs generalizing acc with
  | nil => rfl
  | cons x xs ih => simpa [ewmScan] using ih ((1 - α) * acc + α * x)

theorem ewmScan_getD_zero (α acc : ℚ) (xs : List ℚ) :
    (ewmScan α acc xs).getD 0 0 = acc := by
  cases xs <;> rfl

theorem ewmScan_getD_succ (α acc : ℚ) (xs : List ℚ) (t : Nat)
    (ht : t < xs.length) :
    (ewmScan α acc xs).getD (t + 1) 0 =
      (1 - α) * (ewmScan α acc xs).getD t 0 + α * xs.getD t 0 := by
  induction xs generalizing acc t with
  | nil => simp at ht
  | cons x xs ih =>
    rw [show ewmScan α acc (x :: xs) = acc :: ewmScan α ((1 - α) * acc + α * x) xs from rfl]
    cases t with
    | zero =>
      rw [List.getD_cons_succ, List.getD_cons_zero, List.getD_cons_zero, ewmScan_getD_zero]
    | succ s =>
      have hs : s < xs.length := by simpa using ht
      rw [List.getD_cons_succ, List.getD_cons_succ, List.getD_cons_succ]
      exact ih ((1 - α) * acc + α * x) s hs

theorem length_ewmAdjustFalse (α : ℚ) (xs : List ℚ) :
    (ewmAdjustFalse α xs).length = xs.length := by
  cases xs with
  | nil => rfl
  | cons x xs => simp [ewmAdjustFalse, length_ewmScan]

/-- Seed of the pandas recurrence: the first output equals the first sample. -/
theorem ewmAdjustFalse_getD_zero (α : ℚ) (xs : List ℚ) :
    (ewmAdjustFalse α xs).getD 0 0 = xs.getD 0 0 := by
  cases xs with
  | nil => rfl
  | cons x xs =>
    rw [show ewmAdjustFalse α (x :: xs) = ewmScan α x xs from rfl, ewmScan_getD_zero,
      List.getD_cons_zero]

/-- Update rule of the pandas recurrence, valid from the second sample on. -/
theorem ewmAdjustFalse_getD_succ (α : ℚ) (xs : List ℚ) (t : Nat)
    (ht : t + 1 < xs.length) :
    (ewmAdjustFalse α xs).getD (t + 1) 0 =
      (1 - α) * (ewmAdjustFalse α xs).getD t 0 + α * xs.getD (t + 1) 0 := by
  cases xs with
  | nil => simp at ht
  | cons x xs =>
    have hs : t < xs.length := by simpa using ht
    rw [show ewmAdjustFalse α (x :: xs) = ewmScan α x xs from rfl, List.getD_cons_succ]
    exact ewmScan_getD_succ α x xs t hs

theorem ewmScan_getD_of_zeros (α acc : ℚ) (xs : List ℚ) (hacc : acc = 0)
    (hz : ∀ x ∈ xs, x = 0) (t : Nat) :
    (ewmScan α acc xs).getD t 0 = 0 := by
  induction xs generalizing acc t with
  | nil => cases t <;> simp [ewmScan, hacc]
  | cons x xs ih =>
    rw [show ewmScan α acc (x :: xs) = acc :: ewmScan α ((1 - α) * acc + α * x) xs from rfl]
    cases t with
    | zero => rw [List.getD_cons_zero, hacc]
    | succ s =>
      have hx : x = 0 := hz x (List.mem_cons_self x xs)
      have hacc2 : (1 - α) * acc + α * x = 0 := by rw [hacc, hx]; ring
      rw [List.getD_cons_succ]
      exact ih ((1 - α) * acc + α * x) hacc2 (fun y hy => hz y (List.mem_cons_of_mem x hy)) s

/-- A smoothed series of all-zero samples is identically zero (the case of a
constant close series: every gain and every loss is zero). -/
theorem ewmAdjustFalse_getD_of_zeros (α : ℚ) (xs : List ℚ)
    (hz : ∀ x ∈ xs, x = 0) (t : Nat) :
    (ewmAdjustFalse α xs).getD t 0 = 0 := by
  cases xs with
  | nil => cases t <;> rfl
  | cons x xs =>
    exact ewmScan_getD_of_zeros α x xs (hz x (List.mem_cons_self x xs))
      (fun y hy => hz y (List.mem_cons_of_mem x hy)) t

/-! Row access into `compute_features` output and the two indicator columns. -/

theorem length_compute_features (df : List OhlcvRow) (conf : FeatureConf) :
    (compute_features df conf).length = df.length := by
  simp [compute_features]

theorem compute_features_getD (df : List OhlcvRow) (conf : FeatureConf) (t : Nat)
    (ht : t < df.length) :
    (compute_features df conf).getD t default = featRowAt df conf t := by
  unfold compute_features
  rw [List.getD_eq_getElem?_getD, List.getElem?_map, List.getElem?_range ht]
  rfl

theorem compute_rsi_getD (closes : List ℚ) (t : Nat) (ht : t < closes.length) :
    (compute_rsi closes 14).getD t none =
      (if t + 1 < 14 then none
       else rsiOfAvg ((ewmAdjustFalse (1 / 14) (gains closes)).getD t 0)
         ((ewmAdjustFalse (1 / 14) (losses closes)).getD t 0)) := by
  unfold compute_rsi
  rw [List.getD_eq_getElem?_getD, List.getElem?_map, List.getElem?_range ht]
  norm_num

theorem compute_atr_getD (df : List OhlcvRow) (t : Nat) (ht : t < df.length) :
    (compute_atr df 14).getD t none =
      (if t + 1 < 14 then none
       else some ((ewmAdjustFalse (1 / 14) (trueRanges df)).getD t 0)) := by
  unfold compute_atr
  rw [List.getD_eq_getElem?_getD, List.getElem?_map, List.getElem?_range ht]
  norm_num

/-- The `rsi` column entry of `compute_features` at a valid index. -/
theorem featRowAt_rsi (df : List OhlcvRow) (conf : FeatureConf) (t : Nat)
    (ht : t < df.length) :
    (featRowAt df conf t).rsi =
      (if df.length > 20 then
        (if t + 1 < 14 then none
         else rsiOfAvg ((ewmAdjustFalse (1 / 14) (gains (df.map (·.close)))).getD t 0)
           ((ewmAdjustFalse (1 / 14) (losses (df.map (·.close)))).getD t 0))
       else some 50) := by
  have hlen : t < (df.map (·.close)).length := by simpa using ht
  unfold featRowAt
  simp only []
  rw [compute_rsi_getD _ t hlen]

theorem length_deltas (xs : List ℚ) : (deltas xs).length = xs.length := by
  cases xs with
  | nil => rfl
  | cons x xs => simp [deltas]

theorem length_gains (xs : List ℚ) : (gains xs).length = xs.length := by
  simp [gains, length_deltas]

theorem length_losses (xs : List ℚ) : (losses xs).length = xs.length := by
  simp [losses, length_deltas]

theorem length_trueRanges (df : List OhlcvRow) : (trueRanges df).length = df.length := by
  cases df with
  | nil => rfl
  | cons r rs => simp [trueRanges]

/-- The `atr_ratio` column entry of `compute_features` at a valid index. -/
theorem featRowAt_atr_ratio (df : List OhlcvRow) (conf : FeatureConf) (t : Nat)
    (ht : t < df.length) :
    (featRowAt df conf t).atr_ratio =
      (if df.length > 20 then
        (if t + 1 < 14 then none
         else
           if (df.map (·.close)).getD t 0 = 0 then none
           else some ((ewmAdjustFalse (1 / 14) (trueRanges df)).getD t 0 /
             (df.map (·.close)).getD t 0))
       else some 0) := by
  unfold featRowAt
  simp only []
  rw [compute_atr_getD df t ht]
  by_cases h20 : df.length > 20
  · simp only [if_pos h20]
    by_cases h14 : t + 1 < 14
    · simp [if_pos h14]
    · simp [if_neg h14, Option.bind]
  · simp [if_neg h20]

/-! Claim C1: the smoothing behind the rsi/atr columns of
`compute_features`. -/

/-- Claim C1 as stated is false: on a concrete 21-row close series the rsi
column of `compute_features` differs, both at row index 13 and at row index
14, from the recurrence seeded by the simple average of the first 14
gain/loss samples that the claim asserts (pandas `adjust=False` seeds the
recurrence at the first sample instead). -/
theorem C1_seeded_wilder_counterexample :
    20 < cexDf.length ∧
    ((compute_features cexDf {}).getD 13 default).rsi ≠
      rsiWilderSpec (cexDf.map (·.close)) 13 ∧
    ((compute_features cexDf {}).getD 14 default).rsi ≠
      rsiWilderSpec (cexDf.map (·.close)) 14 := by
  have hlen : cexDf.length = 21 := by norm_num [cexDf, cexCloses]
  have h13 : (13 : ℕ) < cexDf.length := by omega
  have h14 : (14 : ℕ) < cexDf.length := by omega
  refine ⟨by omega, ?_, ?_⟩
  · rw [compute_features_getD _ _ _ h13, featRowAt_rsi _ _ _ h13]
    norm_num [cexDf, cexCloses, rsiWilderSpec, wilderSeededAvg, gains, losses, deltas,
      ewmAdjustFalse, ewmScan, rsiOfAvg, hlen]
  · rw [compute_features_getD _ _ _ h14, featRowAt_rsi _ _ _ h14]
    norm_num [cexDf, cexCloses, rsiWilderSpec, wilderSeededAvg, gains, losses, deltas,
      ewmAdjustFalse, ewmScan, rsiOfAvg, hlen]

/-- Claim C1 (amended): for every OHLCV series of more than 20 rows the
rsi/atr columns of `compute_features` are computed by Wilder smoothing with
α = 1/14 in the pandas `adjust=False` sense: the recurrence
`avg[t] = avg[t-1]·(1 − 1/14) + x[t]·(1/14)` holds for every `t ≥ 1` (not
only from 14 on), and it is seeded at the first gain/loss/true-range sample
(`avg[0] = x[0]`) — not at the simple average of the first 14 samples.
Outputs before row index 13 are NaN-masked; from index 13 on,
`rsi = 100 − 100/(1 + avg_gain/avg_loss)` and `atr_ratio = atr/close`. -/
theorem C1_pandas_wilder_recurrence (df : List OhlcvRow) (conf : FeatureConf)
    (h20 : 20 < df.length) :
    ((ewmAdjustFalse (1 / 14) (gains (df.map (·.close)))).getD 0 0 =
        (gains (df.map (·.close))).getD 0 0
      ∧ (ewmAdjustFalse (1 / 14) (losses (df.map (·.close)))).getD 0 0 =
        (losses (df.map (·.close))).getD 0 0
      ∧ (ewmAdjustFalse (1 / 14) (trueRanges df)).getD 0 0 = (trueRanges df).getD 0 0)
    ∧ (∀ t, t + 1 < df.length →
        ((ewmAdjustFalse (1 / 14) (gains (df.map (·.close)))).getD (t + 1) 0 =
          (ewmAdjustFalse (1 / 14) (gains (df.map (·.close)))).getD t 0 * (1 - 1 / 14) +
            (gains (df.map (·.close))).getD (t + 1) 0 * (1 / 14)
        ∧ (ewmAdjustFalse (1 / 14) (losses (df.map (·.close)))).getD (t + 1) 0 =
          (ewmAdjustFalse (1 / 14) (losses (df.map (·.close)))).getD t 0 * (1 - 1 / 14) +
            (losses (df.map (·.close))).getD (t + 1) 0 * (1 / 14)
        ∧ (ewmAdjustFalse (1 / 14) (trueRanges df)).getD (t + 1) 0 =
          (ewmAdjustFalse (1 / 14) (trueRanges df)).getD t 0 * (1 - 1 / 14) +
            (trueRanges df).getD (t + 1) 0 * (1 / 14)))
    ∧ (∀ t, 13 ≤ t → t < df.length →
        (((compute_features df conf).getD t default).rsi =
          rsiOfAvg ((ewmAdjustFalse (1 / 14) (gains (df.map (·.close)))).getD t 0)
            ((ewmAdjustFalse (1 / 14) (losses (df.map (·.close)))).getD t 0)
        ∧ ((df.map (·.close)).getD t 0 ≠ 0 →
            ((compute_features df conf).getD t default).atr_ratio =
              some ((ewmAdjustFalse (1 / 14) (trueRanges df)).getD t 0 /
                (df.map (·.close)).getD t 0))))
    ∧ (∀ t, t < 13 → ((compute_features df conf).getD t default).rsi = none) := by
  refine ⟨⟨ewmAdjustFalse_getD_zero _ _, ewmAdjustFalse_getD_zero _ _,
    ewmAdjustFalse_getD_zero _ _⟩, ?_, ?_, ?_⟩
  · intro t ht
    have hg : t + 1 < (gains (df.map (·.close))).length := by
      rw [length_gains]; simpa using ht
    have hl : t + 1 < (losses (df.map (·.close))).length := by
      rw [length_losses]; simpa using ht
    have htr : t + 1 < (trueRanges df).length := by
      rw [length_trueRanges]; exact ht
    refine ⟨?_, ?_, ?_⟩
    · rw [ewmAdjustFalse_getD_succ _ _ _ hg]; ring
    · rw [ewmAdjustFalse_getD_succ _ _ _ hl]; ring
    · rw [ewmAdjustFalse_getD_succ _ _ _ htr]; ring
  · intro t h13 htlen
    have h14 : ¬(t + 1 < 14) := by omega
    constructor
    · rw [compute_features_getD _ _ _ htlen, featRowAt_rsi _ _ _ htlen,
        if_pos h20, if_neg h14]
    · intro hc
      rw [compute_features_getD _ _ _ htlen, featRowAt_atr_ratio _ _ _ htlen,
        if_pos h20, if_neg h14, if_neg hc]
  · intro t ht13
    have htlen : t < df.length := by omega
    have h14 : t + 1 < 14 := by omega
    rw [compute_features_getD _ _ _ htlen, featRowAt_rsi _ _ _ htlen,
      if_pos h20, if_pos h14]

/-- Witness for the amended claim C1: the theorem applied to the concrete
21-row frame, read at row 14 (an rsi column equation and one step of the
update rule). -/
theorem C1_pandas_wilder_recurrence_witness :
    ((compute_features cexDf {}).getD 14 default).rsi =
      rsiOfAvg ((ewmAdjustFalse (1 / 14) (gains (cexDf.map (·.close)))).getD 14 0)
        ((ewmAdjustFalse (1 / 14) (losses (cexDf.map (·.close)))).getD 14 0) ∧
    (ewmAdjustFalse (1 / 14) (gains (cexDf.map (·.close)))).getD 14 0 =
      (ewmAdjustFalse (1 / 14) (gains (cexDf.map (·.close)))).getD 13 0 * (1 - 1 / 14) +
        (gains (cexDf.map (·.close))).getD 14 0 * (1 / 14) := by
  have h20 : 20 < cexDf.length := by norm_num [cexDf, cexCloses]
  have h := C1_pandas_wilder_recurrence cexDf {} h20
  exact ⟨(h.2.2.1 14 (by norm_num) (by norm_num [cexDf, cexCloses])).1,
    (h.2.1 13 (by norm_num [cexDf, cexCloses])).1⟩

/-! Claims C4 and C5: behaviour of `scale_to_100`. -/

theorem truncQ_mono {a b : ℚ} (h : a ≤ b) : truncQ a ≤ truncQ b := by
  unfold truncQ
  by_cases ha : a < 0 <;> by_cases hb : b < 0
  · rw [if_pos ha, if_pos hb]
    have : ⌊-b⌋ ≤ ⌊-a⌋ := Int.floor_le_floor (by linarith)
    omega
  · rw [if_pos ha, if_neg hb]
    have h1 : (0 : ℤ) ≤ ⌊-a⌋ := Int.floor_nonneg.mpr (by linarith)
    have h2 : (0 : ℤ) ≤ ⌊b⌋ := Int.floor_nonneg.mpr (by linarith)
    omega
  · exact absurd (lt_of_le_of_lt h hb) ha
  · rw [if_neg ha, if_neg hb]
    exact Int.floor_le_floor h

theorem truncQ_eq_floor {q : ℚ} (h : 0 ≤ q) : truncQ q = ⌊q⌋ := by
  unfold truncQ
  rw [if_neg (not_lt.mpr h)]

theorem displayMap_eq (n : ℚ) :
    displayMap n = if n < 0.2 then 300 * n else 50 * n + 50 := by
  unfold displayMap
  split_ifs <;> ring

theorem displayMap_mono {n1 n2 : ℚ} (h : n1 ≤ n2) : displayMap n1 ≤ displayMap n2 := by
  rw [displayMap_eq, displayMap_eq]
  by_cases h1 : n1 < 0.2 <;> by_cases h2 : n2 < 0.2
  · rw [if_pos h1, if_pos h2]; linarith
  · rw [if_pos h1, if_neg h2]; push_neg at h2; linarith
  · exact absurd (lt_of_le_of_lt h h2) h1
  · rw [if_neg h1, if_neg h2]; linarith

theorem displayMap_nonneg {n : ℚ} (h : 0 ≤ n) : 0 ≤ displayMap n := by
  rw [displayMap_eq]
  by_cases h1 : n < 0.2
  · rw [if_pos h1]; linarith
  · rw [if_neg h1]; push_neg at h1; linarith

theorem displayMap_le_100 {n : ℚ} (h : n ≤ 1) : displayMap n ≤ 100 := by
  rw [displayMap_eq]
  by_cases h1 : n < 0.2
  · rw [if_pos h1]; linarith
  · rw [if_neg h1]; push_neg at h1; linarith

theorem scoreCapOf_pos (market_regime : String) (max_raw : ℚ) :
    0 < scoreCapOf market_regime max_raw := by
  unfold scoreCapOf
  split_ifs <;> norm_num

theorem scoreCapOf_le_100 (market_regime : String) (max_raw : ℚ) :
    scoreCapOf market_regime max_raw ≤ 100 := by
  unfold scoreCapOf
  split_ifs <;> norm_num

theorem scoreCapOf_bear (max_raw : ℚ) : scoreCapOf "BEAR" max_raw ≤ 80 := by
  unfold scoreCapOf
  split_ifs <;> simp_all

theorem scoreCapOf_neg {max_raw : ℚ} (h : max_raw < 0) (market_regime : String) :
    scoreCapOf market_regime max_raw ≤ 50 := by
  unfold scoreCapOf
  rw [if_pos h]
  split_ifs <;> norm_num

/-- Claim C4 as stated is false: with `min_raw > max_raw` (an input the
function accepts) the map is decreasing, e.g. with `(min_raw, max_raw) =
(1, 0)` the raw scores 0 ≤ 1 map to 100 > 0. -/
theorem C4_monotonicity_counterexample :
    ¬ (∀ (min_raw max_raw : ℚ) (regime : String) (a b : ℚ), a ≤ b →
        scale_to_100 a min_raw max_raw regime ≤ scale_to_100 b min_raw max_raw regime) := by
  intro h
  have hle := h 1 0 "NEUTRAL" 0 1 (by norm_num)
  have e1 : scale_to_100 0 1 0 "NEUTRAL" = 100 := by
    simp only [scale_to_100, displayMap, scoreCapOf, String.reduceEq]
    norm_num [truncQ]
  have e2 : scale_to_100 1 1 0 "NEUTRAL" = 0 := by
    simp only [scale_to_100, displayMap, scoreCapOf, String.reduceEq]
    norm_num [truncQ]
  rw [e1, e2] at hle
  exact absurd hle (by norm_num)

/-- Claim C4 (amended): for every fixed `(min_raw, max_raw, regime)` with
`min_raw ≤ max_raw`, `scale_to_100` is monotonically non-decreasing in the
raw score; and it returns exactly 50 whenever `min_raw = max_raw` (the latter
for arbitrary `min_raw`, `max_raw`). -/
theorem C4_monotone_of_le (min_raw max_raw : ℚ) (regime : String)
    (hmm : min_raw ≤ max_raw) :
    (∀ a b : ℚ, a ≤ b →
      scale_to_100 a min_raw max_raw regime ≤ scale_to_100 b min_raw max_raw regime)
    ∧ (min_raw = max_raw → ∀ a : ℚ, scale_to_100 a min_raw max_raw regime = 50) := by
  constructor
  · intro a b hab
    unfold scale_to_100
    by_cases heq : max_raw = min_raw
    · rw [if_pos heq, if_pos heq]
    · rw [if_neg heq, if_neg heq]
      have hlt : min_raw < max_raw := lt_of_le_of_ne hmm (fun h => heq h.symm)
      have hden : (0 : ℚ) < max_raw - min_raw := by linarith
      have hn : (a - min_raw) / (max_raw - min_raw) ≤ (b - min_raw) / (max_raw - min_raw) :=
        (div_le_div_iff_of_pos_right hden).mpr (by linarith)
      apply truncQ_mono
      have hcap : (0 : ℚ) ≤ (scoreCapOf regime max_raw : ℚ) / 100 := by
        have h0 : (0 : ℚ) ≤ (scoreCapOf regime max_raw : ℚ) := by
          exact_mod_cast (scoreCapOf_pos regime max_raw).le
        positivity
      exact mul_le_mul_of_nonneg_right (displayMap_mono hn) hcap
  · intro heq a
    unfold scale_to_100
    rw [if_pos heq.symm]

/-- Witness for the amended claim C4 at `(min_raw, max_raw) = (0, 1)`,
regime NEUTRAL, raw scores 0 ≤ 1, plus the degenerate-range case. -/
theorem C4_monotone_of_le_witness :
    scale_to_100 0 0 1 "NEUTRAL" ≤ scale_to_100 1 0 1 "NEUTRAL" ∧
    scale_to_100 7 3 3 "NEUTRAL" = 50 :=
  ⟨(C4_monotone_of_le 0 1 "NEUTRAL" (by norm_num)).1 0 1 (by norm_num),
   (C4_monotone_of_le 3 3 "NEUTRAL" (le_refl 3)).2 rfl 7⟩

/-- Claim C5: for `min_raw ≤ raw ≤ max_raw` the display score is at most 100,
at most 80 in a BEAR regime, at most 50 when `max_raw < 0`, and (for a
nondegenerate range) equals the floor of the piecewise display map of the
normalized score scaled by `cap/100`. -/
theorem C5_scale_bounds (raw min_raw max_raw : ℚ) (regime : String)
    (hlo : min_raw ≤ raw) (hhi : raw ≤ max_raw) :
    scale_to_100 raw min_raw max_raw regime ≤ 100
    ∧ (regime = "BEAR" → scale_to_100 raw min_raw max_raw regime ≤ 80)
    ∧ (max_raw < 0 → scale_to_100 raw min_raw max_raw regime ≤ 50)
    ∧ (min_raw < max_raw →
        scale_to_100 raw min_raw max_raw regime =
          ⌊displayMap ((raw - min_raw) / (max_raw - min_raw)) *
            ((scoreCapOf regime max_raw : ℚ) / 100)⌋) := by
  by_cases heq : max_raw = min_raw
  · refine ⟨?_, ?_, ?_, ?_⟩
    · unfold scale_to_100; rw [if_pos heq]; norm_num
    · intro _; unfold scale_to_100; rw [if_pos heq]; norm_num
    · intro _; unfold scale_to_100; rw [if_pos heq]
    · intro hlt; rw [heq] at hlt; exact absurd hlt (lt_irrefl _)
  · have hlt : min_raw < max_raw := lt_of_le_of_ne (le_trans hlo hhi) (fun h => heq h.symm)
    have hden : (0 : ℚ) < max_raw - min_raw := by linarith
    have hn0 : (0 : ℚ) ≤ (raw - min_raw) / (max_raw - min_raw) :=
      div_nonneg (by linarith) (by linarith)
    have hn1 : (raw - min_raw) / (max_raw - min_raw) ≤ 1 := by
      rw [div_le_one hden]; linarith
    have hdm0 : (0 : ℚ) ≤ displayMap ((raw - min_raw) / (max_raw - min_raw)) :=
      displayMap_nonneg hn0
    have hdm100 : displayMap ((raw - min_raw) / (max_raw - min_raw)) ≤ 100 :=
      displayMap_le_100 hn1
    have harg0 : (0 : ℚ) ≤ displayMap ((raw - min_raw) / (max_raw - min_raw)) *
        ((scoreCapOf regime max_raw : ℚ) / 100) := by
      apply mul_nonneg hdm0
      have h0 : (0 : ℚ) ≤ (scoreCapOf regime max_raw : ℚ) := by
        exact_mod_cast (scoreCapOf_pos regime max_raw).le
      positivity
    have hval : scale_to_100 raw min_raw max_raw regime =
        ⌊displayMap ((raw - min_raw) / (max_raw - min_raw)) *
          ((scoreCapOf regime max_raw : ℚ) / 100)⌋ := by
      unfold scale_to_100
      rw [if_neg heq]
      exact truncQ_eq_floor harg0
    have hcapb : ∀ c : ℤ, scoreCapOf regime max_raw ≤ c →
        scale_to_100 raw min_raw max_raw regime ≤ c := by
      intro c hc
      rw [hval]
      have hargle : displayMap ((raw - min_raw) / (max_raw - min_raw)) *
          ((scoreCapOf regime max_raw : ℚ) / 100) ≤ (c : ℚ) := by
        have hcap0 : (0 : ℚ) ≤ (scoreCapOf regime max_raw : ℚ) := by
          exact_mod_cast (scoreCapOf_pos regime max_raw).le
        have h1 : displayMap ((raw - min_raw) / (max_raw - min_raw)) *
            ((scoreCapOf regime max_raw : ℚ) / 100) ≤
            100 * ((scoreCapOf regime max_raw : ℚ) / 100) := by
          apply mul_le_mul_of_nonneg_right hdm100
          positivity
        have h2 : (100 : ℚ) * ((scoreCapOf regime max_raw : ℚ) / 100) =
            (scoreCapOf regime max_raw : ℚ) := by ring
        have h3 : (scoreCapOf regime max_raw : ℚ) ≤ (c : ℚ) := by exact_mod_cast hc
        linarith
      calc ⌊displayMap ((raw - min_raw) / (max_raw - min_raw)) *
            ((scoreCapOf regime max_raw : ℚ) / 100)⌋ ≤ ⌊(c : ℚ)⌋ :=
              Int.floor_le_floor hargle
        _ = c := Int.floor_intCast c
    refine ⟨hcapb 100 (scoreCapOf_le_100 regime max_raw), ?_, ?_, fun _ => hval⟩
    · intro hbear
      subst hbear
      exact hcapb 80 (scoreCapOf_bear max_raw)
    · intro hneg
      exact hcapb 50 (scoreCapOf_neg hneg regime)

/-- Witness for claim C5: a concrete in-range evaluation
(`raw = 1/2` in range `[0, 1]`, NEUTRAL). -/
theorem C5_scale_bounds_witness :
    scale_to_100 (1/2) 0 1 "NEUTRAL" ≤ 100 ∧ scale_to_100 (1/2) 0 1 "NEUTRAL" = 75 := by
  have h := C5_scale_bounds (1/2) 0 1 "NEUTRAL" (by norm_num) (by norm_num)
  refine ⟨h.1, ?_⟩
  rw [h.2.2.2 (by norm_num)]
  simp only [displayMap, scoreCapOf, String.reduceEq]
  norm_num

/-! Claim C3: the None contract of `score_stock`. -/

/-- Shared helper: `score_stock` returns `none` exactly when the series is too
short or the second-to-last row's turnover misses the regime-adjusted
threshold — a condition that does not mention the z-scores, news score,
volatility score or strategy name. -/
theorem score_stock_eq_none_iff (code name : String) (df : List FeatRow)
    (mom_z_scores : List (Nat × ℚ)) (news_score : Option ℚ) (volatility_score : ℚ)
    (conf : FeatureConf) (market_regime strategy : String) :
    score_stock code name df mom_z_scores news_score volatility_score conf
      market_regime strategy = none ↔
      (df.length < conf.mom_long + 2 ∨
        (prevRow df).value_traded.getD 0 < minTurnoverOf conf market_regime) := by
  unfold score_stock
  by_cases h1 : df.length < conf.mom_long + 2
  · simp [h1]
  · rw [if_neg h1]
    by_cases h2 : (prevRow df).value_traded.getD 0 < minTurnoverOf conf market_regime
    · simp [h1, h2]
    · simp [h1, h2]

/-- Claim C3: `score_stock` returns None iff the series has fewer than
`mom_long + 2` rows or the second-to-last row's `value_traded` is below
`min_turnover_won` (multiplied by 1.5 when the market regime is BEAR);
otherwise it returns a StockScore. The second conjunct makes the claimed
independence explicit: the None outcome is the same for any momentum
z-scores, news score, volatility score and strategy name. -/
theorem C3_score_stock_none_iff (code name : String) (df : List FeatRow)
    (mom_z_scores : List (Nat × ℚ)) (news_score : Option ℚ) (volatility_score : ℚ)
    (conf : FeatureConf) (market_regime strategy : String)
    (mom_z_scores' : List (Nat × ℚ)) (news_score' : Option ℚ) (volatility_score' : ℚ)
    (strategy' : String) :
    (score_stock code name df mom_z_scores news_score volatility_score conf
        market_regime strategy = none ↔
      (df.length < conf.mom_long + 2 ∨
        (prevRow df).value_traded.getD 0 < minTurnoverOf conf market_regime))
    ∧ ((score_stock code name df mom_z_scores news_score volatility_score conf
        market_regime strategy).isNone =
      (score_stock code name df mom_z_scores' news_score' volatility_score' conf
        market_regime strategy').isNone) := by
  constructor
  · exact score_stock_eq_none_iff code name df mom_z_scores news_score
      volatility_score conf market_regime strategy
  · by_cases h : df.length < conf.mom_long + 2 ∨
      (prevRow df).value_traded.getD 0 < minTurnoverOf conf market_regime
    · rw [Option.isNone_iff_eq_none.mpr ((score_stock_eq_none_iff _ _ _ _ _ _ _ _ _).mpr h),
        Option.isNone_iff_eq_none.mpr ((score_stock_eq_none_iff _ _ _ _ _ _ _ _ _).mpr h)]
    · have h1 := (not_iff_not.mpr (score_stock_eq_none_iff code name df mom_z_scores
        news_score volatility_score conf market_regime strategy)).mpr h
      have h2 := (not_iff_not.mpr (score_stock_eq_none_iff code name df mom_z_scores'
        news_score' volatility_score' conf market_regime strategy')).mpr h
      rcases hs1 : score_stock code name df mom_z_scores news_score volatility_score conf
          market_regime strategy with _ | s1
      · exact absurd hs1 h1
      · rcases hs2 : score_stock code name df mom_z_scores' news_score' volatility_score'
            conf market_regime strategy' with _ | s2
        · exact absurd hs2 h2
        · rfl

/-! Claim C6: the star ladder and its risk caps. -/

/-- Bounds of the ladder-then-caps specification, used for the cap clauses of
claim C6. -/
theorem starsLadderSpec_bounds (item : RecoItem) (market_regime : String) :
    (1 ≤ starsLadderSpec item market_regime ∧ starsLadderSpec item market_regime ≤ 5)
    ∧ (item.momentum.rsi ≥ 80 → starsLadderSpec item market_regime ≤ 4)
    ∧ (item.momentum.rsi ≥ 90 → starsLadderSpec item market_regime ≤ 3)
    ∧ ((item.news_sentiment.map
          (fun ns => containsText (strOfNewsSentiment ns) "강력한 악재")).getD false = true →
        starsLadderSpec item market_regime ≤ 3) := by
  simp only [starsLadderSpec]
  generalize (if market_regime = "BULL" then ([60, 70, 80, 90] : List ℚ)
    else if market_regime = "BEAR" then [70, 80, 90, 97]
    else [65, 75, 85, 95]) = cuts
  refine ⟨by split_ifs <;> omega, ?_, ?_, ?_⟩
  · intro h
    rw [if_pos h]
    omega
  · intro h
    rw [if_pos h]
    omega
  · intro h
    rw [if_pos h]
    omega

/-- Claim C6: `calculate_stock_stars` coincides with the ladder-then-caps
specification `starsLadderSpec` written from the claim's table (BULL
[60,70,80,90], NEUTRAL [65,75,85,95], BEAR [70,80,90,97], NEUTRAL for unknown
regimes, then the three downward caps), and in particular never exceeds 4
when RSI ≥ 80, never exceeds 3 when RSI ≥ 90, never exceeds 3 on a
strong-negative sentiment flag, and always stays within 1..5. -/
theorem C6_stars_ladder_and_caps (item : RecoItem) (market_regime : String) :
    calculate_stock_stars item market_regime = starsLadderSpec item market_regime
    ∧ (item.momentum.rsi ≥ 80 → calculate_stock_stars item market_regime ≤ 4)
    ∧ (item.momentum.rsi ≥ 90 → calculate_stock_stars item market_regime ≤ 3)
    ∧ ((item.news_sentiment.map
          (fun ns => containsText (strOfNewsSentiment ns) "강력한 악재")).getD false = true →
        calculate_stock_stars item market_regime ≤ 3)
    ∧ 1 ≤ calculate_stock_stars item market_regime
    ∧ calculate_stock_stars item market_regime ≤ 5 := by
  have hmain : calculate_stock_stars item market_regime =
      starsLadderSpec item market_regime := by
    simp only [calculate_stock_stars, starsLadderSpec]
    have hcuts :
        (if market_regime = "BULL" then ([60, 70, 80, 90] : List ℚ)
         else if market_regime = "NEUTRAL" then [65, 75, 85, 95]
         else if market_regime = "BEAR" then [70, 80, 90, 97]
         else [65, 75, 85, 95]) =
        (if market_regime = "BULL" then ([60, 70, 80, 90] : List ℚ)
         else if market_regime = "BEAR" then [70, 80, 90, 97]
         else [65, 75, 85, 95]) := by
      split_ifs <;> simp_all
    rw [hcuts]
    generalize (if market_regime = "BULL" then ([60, 70, 80, 90] : List ℚ)
      else if market_regime = "BEAR" then [70, 80, 90, 97]
      else [65, 75, 85, 95]) = cuts
    split_ifs <;> omega
  have hb := starsLadderSpec_bounds item market_regime
  exact ⟨hmain, fun h80 => hmain ▸ hb.2.1 h80, fun h90 => hmain ▸ hb.2.2.1 h90,
    fun hn => hmain ▸ hb.2.2.2 hn, hmain ▸ hb.1.1, hmain ▸ hb.1.2⟩

/-- Witness for claim C6: the concrete overheated item (RSI 95, score 200) in
a BULL regime is capped at 3 stars. -/
theorem C6_stars_ladder_and_caps_witness :
    calculate_stock_stars c6Item "BULL" ≤ 3 ∧
    calculate_stock_stars c6Item "BULL" = starsLadderSpec c6Item "BULL" := by
  have h := C6_stars_ladder_and_caps c6Item "BULL"
  exact ⟨h.2.2.1 (by norm_num [c6Item]), h.1⟩

/-! Claim C7: z-scores under a degenerate reference set. -/

/-- Claim C7: for a reference set whose sample (n−1) standard deviation is
zero — i.e. whose sample variance is zero — the z-score entry produced by
`calculate_z_scores` for every member is exactly 0 (the guarded expression
never divides); the same guarded expression is used verbatim for the
news/volatility normalization of `_perform_final_scoring`. When the standard
deviation is strictly positive the z-score is `(x − mean)/std`. -/
theorem C7_zscore_zero_std (features : FeatRow) (mom_stats : List (Nat × ℚ × ℚ))
    (w : Nat) (mean std : ℚ) (vals : List ℚ)
    (hmem : (w, mean, std) ∈ mom_stats) (hnn : 0 ≤ std)
    (hstd : std ^ 2 = sampleVar vals) :
    ((w, guardedZ ((features.mom w).getD 0) mean std) ∈
        calculate_z_scores features mom_stats)
    ∧ (sampleVar vals = 0 →
        std = 0 ∧ guardedZ ((features.mom w).getD 0) mean std = 0)
    ∧ (std ≤ 0 → guardedZ ((features.mom w).getD 0) mean std = 0)
    ∧ (0 < std → guardedZ ((features.mom w).getD 0) mean std =
        (((features.mom w).getD 0) - mean) / std) := by
  refine ⟨?_, ?_, ?_, ?_⟩
  · exact List.mem_map.mpr ⟨(w, mean, std), hmem, rfl⟩
  · intro hv
    have h0 : std = 0 := by
      have h2 : std ^ 2 = 0 := by rw [hstd, hv]
      exact (pow_eq_zero_iff (by norm_num : (2:ℕ) ≠ 0)).mp h2
    exact ⟨h0, by simp [guardedZ, h0]⟩
  · intro hle
    simp [guardedZ, not_lt.mpr hle]
  · intro hpos
    simp [guardedZ, hpos]

/-- Witness for claim C7: the constant reference set `[4, 4]` has sample
variance 0 and the z-score entry produced for window 5 is exactly 0. -/
theorem C7_zscore_zero_std_witness :
    sampleVar [(4:ℚ), 4] = 0 ∧
    ((5, (0:ℚ)) ∈ calculate_z_scores
      { mom := fun w => if w = 5 then some 7 else none } [(5, 3, 0)]) := by
  have hv : sampleVar [(4:ℚ), 4] = 0 := by norm_num [sampleVar, listMean]
  have h := C7_zscore_zero_std { mom := fun w => if w = 5 then some 7 else none }
    [(5, 3, 0)] 5 3 0 [4, 4] (by simp) (le_refl 0) (by rw [hv]; norm_num)
  have hz := (h.2.1 hv).2
  refine ⟨hv, ?_⟩
  have hmem := h.1
  rwa [hz] at hmem

/-! Claim C8: stability of the two descending sorts. -/

theorem filter_insertDesc_of_eq {α : Type} (key : α → ℚ) (c : ℚ) (x : α)
    (l : List α) (hx : key x = c) :
    (insertDesc key x l).filter (fun a => decide (key a = c)) =
      x :: l.filter (fun a => decide (key a = c)) := by
  induction l with
  | nil => simp [insertDesc, hx]
  | cons y ys ih =>
    unfold insertDesc
    by_cases hge : key x ≥ key y
    · rw [if_pos hge]
      rw [List.filter_cons_of_pos (by simp [hx])]
    · rw [if_neg hge]
      have hlt : key x < key y := not_le.mp hge
      have hyc : ¬ (key y = c) := by
        intro hyeq
        rw [hyeq, hx] at hlt
        exact lt_irrefl c hlt
      rw [List.filter_cons_of_neg (by simp [hyc]), List.filter_cons_of_neg (by simp [hyc])]
      exact ih

theorem filter_insertDesc_of_ne {α : Type} (key : α → ℚ) (c : ℚ) (x : α)
    (l : List α) (hx : ¬ (key x = c)) :
    (insertDesc key x l).filter (fun a => decide (key a = c)) =
      l.filter (fun a => decide (key a = c)) := by
  induction l with
  | nil => simp [insertDesc, hx]
  | cons y ys ih =>
    unfold insertDesc
    by_cases hge : key x ≥ key y
    · rw [if_pos hge]
      rw [List.filter_cons_of_neg (by simp [hx])]
    · rw [if_neg hge]
      by_cases hyc : key y = c
      · rw [List.filter_cons_of_pos (by simp [hyc]), List.filter_cons_of_pos (by simp [hyc]), ih]
      · rw [List.filter_cons_of_neg (by simp [hyc]), List.filter_cons_of_neg (by simp [hyc])]
        exact ih

/-- Stability of the embedded Python sort: the subsequence of elements whose
key equals any fixed value is untouched by `sortDesc`. -/
theorem sortDesc_filter {α : Type} (key : α → ℚ) (c : ℚ) (l : List α) :
    (sortDesc key l).filter (fun a => decide (key a = c)) =
      l.filter (fun a => decide (key a = c)) := by
  induction l with
  | nil => rfl
  | cons x xs ih =>
    unfold sortDesc
    by_cases hx : key x = c
    · rw [filter_insertDesc_of_eq key c x _ hx, ih,
        List.filter_cons_of_pos (by simp [hx])]
    · rw [filter_insertDesc_of_ne key c x _ hx, ih,
        List.filter_cons_of_neg (by simp [hx])]

/-- Claim C8: the descending sort used both for candidate selection (on raw
`StockScore`s) and for the final ranking (on display `RecoItem`s) is stable:
for any fixed raw score, the subsequence of securities carrying exactly that
score is the same before and after sorting, so two securities with identical
scores keep their relative order. -/
theorem C8_stable_sorts (pre : List StockScore) (items : List RecoItem) (c : ℚ) :
    ((sortDesc (fun s : StockScore => s.score) pre).filter
        (fun s => decide (s.score = c)) =
      pre.filter (fun s => decide (s.score = c)))
    ∧ ((sortDesc (fun i : RecoItem => i.score) items).filter
        (fun i => decide (i.score = c)) =
      items.filter (fun i => decide (i.score = c))) :=
  ⟨sortDesc_filter _ c pre, sortDesc_filter _ c items⟩

/-! Claim C9: the equal-weight contract of `_prepare_response`. -/

theorem length_insertDesc {α : Type} (key : α → ℚ) (x : α) (l : List α) :
    (insertDesc key x l).length = l.length + 1 := by
  induction l with
  | nil => rfl
  | cons y ys ih =>
    unfold insertDesc
    by_cases h : key x ≥ key y
    · rw [if_pos h]; rfl
    · rw [if_neg h]
      simp [ih]

theorem length_sortDesc {α : Type} (key : α → ℚ) (l : List α) :
    (sortDesc key l).length = l.length := by
  induction l with
  | nil => rfl
  | cons x xs ih =>
    unfold sortDesc
    rw [length_insertDesc, ih]
    rfl

theorem sum_map_const_q {α : Type} (l : List α) (c : ℚ) :
    (l.map (fun _ => c)).sum = l.length * c := by
  induction l with
  | nil => simp
  | cons x xs ih =>
    simp [ih]
    ring

/-- Claim C9: for a nonempty final scored list and `n ≥ 1`, the response of
`_prepare_response` holds `min n (number scored)` items, each carrying weight
`1/k` with `k` the number of returned items (weight is written only on the
returned top slice), and the weights sum to exactly 1. -/
theorem C9_weights (raw : List StockScore) (n : Nat) (regime : String)
    (with_news : Bool) (news_map : String → Option NewsData) (as_of : String)
    (hraw : raw ≠ []) (hn : 1 ≤ n) :
    (prepareResponse raw n regime with_news news_map as_of).candidates.length =
      min n raw.length
    ∧ (∀ item ∈ (prepareResponse raw n regime with_news news_map as_of).candidates,
        item.weight = 1 / ((min n raw.length : ℕ) : ℚ))
    ∧ ((prepareResponse raw n regime with_news news_map as_of).candidates.map
        (fun i => i.weight)).sum = 1 := by
  have hk1 : 1 ≤ min n raw.length :=
    le_min hn (List.length_pos.mpr hraw)
  have hkne : ((min n raw.length : ℕ) : ℚ) ≠ 0 :=
    Nat.cast_ne_zero.mpr (Nat.one_le_iff_ne_zero.mp hk1)
  simp only [prepareResponse]
  rw [if_neg hraw]
  set top := (sortDesc (fun i : RecoItem => i.score)
    (raw.map fun s =>
      let temp : RecoItem :=
        { code := s.code
          name := s.name
          score := (scale_to_100 s.score (listMinQ (raw.map fun s => s.score))
            (listMaxQ (raw.map fun s => s.score)) regime : ℚ)
          stars := 0
          weight := 0
          price := s.price
          reason := generate_friendly_reason s
          momentum := s.momentum
          news_sentiment :=
            if with_news then (news_map s.code).map toNewsSentiment else none }
      { temp with stars := calculate_stock_stars temp regime })).take n with htop
  have hlen : top.length = min n raw.length := by
    rw [htop, List.length_take, length_sortDesc, List.length_map]
  refine ⟨?_, ?_, ?_⟩
  · simpa using hlen
  · intro item hit
    obtain ⟨x, hx, rfl⟩ := List.mem_map.mp hit
    show (1 : ℚ) / (top.length : ℚ) = 1 / ((min n raw.length : ℕ) : ℚ)
    rw [hlen]
  · rw [List.map_map]
    have : ((fun i : RecoItem => i.weight) ∘
        fun item => { item with weight := 1 / (top.length : ℚ) }) =
        fun _ : RecoItem => 1 / (top.length : ℚ) := rfl
    rw [this, sum_map_const_q, hlen, mul_one_div]
    exact div_self hkne

/-- Witness for claim C9: a single scored stock with `n = 1` yields one item
and total weight exactly 1. -/
theorem C9_weights_witness :
    ((prepareResponse [w9Stock] 1 "NEUTRAL" false (fun _ => none)
        "2026-01-01").candidates.map (fun i => i.weight)).sum = 1 ∧
    (prepareResponse [w9Stock] 1 "NEUTRAL" false (fun _ => none)
        "2026-01-01").candidates.length = 1 := by
  have h := C9_weights [w9Stock] 1 "NEUTRAL" false (fun _ => none) "2026-01-01"
    (by simp) (le_refl 1)
  exact ⟨h.2.2, by simp [h.1]⟩

/-! Claim C10: NaN rsi on a flat close series. -/

theorem zipWith_sub_const {c : ℚ} : ∀ (u v : List ℚ),
    (∀ y ∈ u, y = c) → (∀ y ∈ v, y = c) →
    ∀ x ∈ List.zipWith (fun p cur => cur - p) u v, x = 0 := by
  intro u
  induction u with
  | nil => intro v _ _ x hx; simp at hx
  | cons a l ih =>
    intro v hu hv x hx
    cases v with
    | nil => simp at hx
    | cons b m =>
      rcases List.mem_cons.mp (by simpa using hx) with h0 | hz
      · rw [h0, hv b (List.mem_cons_self b m), hu a (List.mem_cons_self a l)]
        ring
      · exact ih m (fun y hy => hu y (List.mem_cons_of_mem a hy))
          (fun y hy => hv y (List.mem_cons_of_mem b hy)) x hz

theorem deltas_const {xs : List ℚ} {c : ℚ} (h : ∀ y ∈ xs, y = c) :
    ∀ x ∈ deltas xs, x = 0 := by
  cases xs with
  | nil => simp [deltas]
  | cons a l =>
    intro x hx
    rw [show deltas (a :: l) =
      0 :: List.zipWith (fun p cur => cur - p) (a :: l) l from rfl] at hx
    rcases List.mem_cons.mp hx with h0 | hz
    · exact h0
    · exact zipWith_sub_const (a :: l) l h
        (fun y hy => h y (List.mem_cons_of_mem a hy)) x hz

theorem gains_const {xs : List ℚ} {c : ℚ} (h : ∀ y ∈ xs, y = c) :
    ∀ x ∈ gains xs, x = 0 := by
  intro x hx
  obtain ⟨d, hd, rfl⟩ := List.mem_map.mp hx
  rw [deltas_const h d hd]
  simp

theorem losses_const {xs : List ℚ} {c : ℚ} (h : ∀ y ∈ xs, y = c) :
    ∀ x ∈ losses xs, x = 0 := by
  intro x hx
  obtain ⟨d, hd, rfl⟩ := List.mem_map.mp hx
  rw [deltas_const h d hd]
  simp

/-- Claim C10: on a close series with more than 20 rows whose closes are all
equal, every entry of the rsi column of `compute_features` is NaN (`none`):
both smoothed averages are zero and the unguarded division `avg_gain/avg_loss`
is `0/0`.  The neutral fallback `rsi = 50.0` is applied exactly when the
series has 20 or fewer rows. -/
theorem C10_flat_rsi_nan (df : List OhlcvRow) (conf : FeatureConf) (c : ℚ)
    (hconst : ∀ r ∈ df, r.close = c) :
    (20 < df.length → ∀ t, t < df.length →
      ((compute_features df conf).getD t default).rsi = none)
    ∧ (df.length ≤ 20 → ∀ t, t < df.length →
      ((compute_features df conf).getD t default).rsi = some 50) := by
  have hcl : ∀ y ∈ df.map (·.close), y = c := by
    intro y hy
    obtain ⟨r, hr, rfl⟩ := List.mem_map.mp hy
    exact hconst r hr
  constructor
  · intro h20 t ht
    rw [compute_features_getD _ _ _ ht, featRowAt_rsi _ _ _ ht, if_pos h20]
    by_cases h14 : t + 1 < 14
    · rw [if_pos h14]
    · rw [if_neg h14]
      rw [ewmAdjustFalse_getD_of_zeros _ _ (gains_const hcl) t,
        ewmAdjustFalse_getD_of_zeros _ _ (losses_const hcl) t]
      simp [rsiOfAvg]
  · intro h20 t ht
    rw [compute_features_getD _ _ _ ht, featRowAt_rsi _ _ _ ht,
      if_neg (by omega : ¬ df.length > 20)]

/-- Witness for claim C10: 21 flat rows give a NaN rsi entry at row 14; 20
flat rows give the 50.0 fallback. -/
theorem C10_flat_rsi_nan_witness :
    ((compute_features (List.replicate 21 flatRow) {}).getD 14 default).rsi = none ∧
    ((compute_features (List.replicate 20 flatRow) {}).getD 10 default).rsi = some 50 := by
  have h1 := C10_flat_rsi_nan (List.replicate 21 flatRow) {} 100
    (by intro r hr; rw [List.eq_of_mem_replicate hr]; rfl)
  have h2 := C10_flat_rsi_nan (List.replicate 20 flatRow) {} 100
    (by intro r hr; rw [List.eq_of_mem_replicate hr]; rfl)
  exact ⟨h1.1 (by simp) 14 (by simp), h2.2 (by simp) 10 (by simp)⟩

/-! Claim C2: empty scorable sets and the two-pass workflow. -/

theorem mem_insertDesc {α : Type} (key : α → ℚ) (x a : α) (l : List α) :
    a ∈ insertDesc key x l ↔ a = x ∨ a ∈ l := by
  induction l with
  | nil => simp [insertDesc]
  | cons y ys ih =>
    unfold insertDesc
    by_cases h : key x ≥ key y
    · rw [if_pos h]
      simp
    · rw [if_neg h]
      simp only [List.mem_cons, ih]
      tauto

theorem mem_sortDesc {α : Type} (key : α → ℚ) (a : α) (l : List α) :
    a ∈ sortDesc key l ↔ a ∈ l := by
  induction l with
  | nil => exact Iff.rfl
  | cons x xs ih =>
    unfold sortDesc
    rw [mem_insertDesc]
    simp [ih]

/-- A successful `score_stock` call reports the code it was given. -/
theorem score_stock_code {code name : String} {df : List FeatRow}
    {z : List (Nat × ℚ)} {ns : Option ℚ} {v : ℚ} {conf : FeatureConf}
    {r st : String} {s : StockScore}
    (h : score_stock code name df z ns v conf r st = some s) : s.code = code := by
  simp only [score_stock] at h
  by_cases h1 : df.length < conf.mom_long + 2
  · rw [if_pos h1] at h
    exact absurd h (by simp)
  · rw [if_neg h1] at h
    by_cases h2 : (prevRow df).value_traded.getD 0 < minTurnoverOf conf r
    · rw [if_pos h2] at h
      exact absurd h (by simp)
    · rw [if_neg h2] at h
      rw [← Option.some.inj h]

theorem mem_featuresMapOf {env : WorkflowEnv} {conf : FeatureConf} {c : String}
    {f : List FeatRow} (h : (c, f) ∈ featuresMapOf env conf) :
    c ∈ env.codes ∧ featFor env conf c = some f := by
  obtain ⟨code, hcode, heq⟩ := List.mem_filterMap.mp h
  rcases hff : featFor env conf code with _ | g
  · rw [hff] at heq
    simp at heq
  · rw [hff] at heq
    simp only [Option.map_some', Option.some.injEq, Prod.mk.injEq] at heq
    obtain ⟨hc, hg⟩ := heq
    subst hc
    subst hg
    exact ⟨hcode, hff⟩

theorem lookup_filterMap_featFor (env : WorkflowEnv) (conf : FeatureConf)
    (c : String) (f : List FeatRow) (codes : List String)
    (hmem : c ∈ codes) (hff : featFor env conf c = some f) :
    (codes.filterMap fun code => (featFor env conf code).map fun g => (code, g)).lookup c
      = some f := by
  induction codes with
  | nil => simp at hmem
  | cons x rest ih =>
    rw [List.filterMap_cons]
    rcases hfx : featFor env conf x with _ | g
    · simp only [hfx, Option.map_none']
      rcases List.mem_cons.mp hmem with rfl | hmem'
      · rw [hfx] at hff
        exact absurd hff (by simp)
      · exact ih hmem'
    · simp only [hfx, Option.map_some']
      by_cases hcx : c = x
      · subst hcx
        rw [hfx] at hff
        simp only [List.lookup, beq_self_eq_true]
        exact hff.symm ▸ rfl
      · simp only [List.lookup, beq_eq_false_iff_ne.mpr hcx]
        exact ih (List.mem_cons.mp hmem |>.resolve_left hcx)

theorem lookup_featuresMapOf (env : WorkflowEnv) (conf : FeatureConf)
    (c : String) (f : List FeatRow) (hmem : c ∈ env.codes)
    (hff : featFor env conf c = some f) :
    (featuresMapOf env conf).lookup c = some f :=
  lookup_filterMap_featFor env conf c f env.codes hmem hff

/-- `finalScoreFor` inherits the None condition of `score_stock`, with the
featured frame looked up from the features map. -/
theorem finalScoreFor_eq_none_iff (codes : List String)
    (fm : List (String × List FeatRow)) (nm : String → Option NewsData)
    (stats : List (Nat × ℚ × ℚ)) (names : String → Option String)
    (conf : FeatureConf) (regime strat : String) (pdStd : List (Option ℚ) → ℚ)
    (c : String) :
    finalScoreFor codes fm nm stats names conf regime strat pdStd c = none ↔
      (((fm.lookup c).getD []).length < conf.mom_long + 2 ∨
        (prevRow ((fm.lookup c).getD [])).value_traded.getD 0 <
          minTurnoverOf conf regime) := by
  unfold finalScoreFor
  exact score_stock_eq_none_iff _ _ _ _ _ _ _ _ _

/-- Claim C2: only the first (momentum-only) scoring pass can produce an
empty scorable set; in that case the whole run aborts with the HTTP 503
"no scorable securities" error and no response is returned.  In every other
case the second (final) pass is provably nonempty — the None outcome of
`score_stock` depends only on data that is identical in the two passes — and
the run returns the prepared response. -/
theorem C2_empty_scorable_fatal (env : WorkflowEnv) :
    (preScoredStocks env {} = [] ∧ runAnalysisWorkflow env = .error noScorableMsg)
    ∨ (preScoredStocks env {} ≠ [] ∧ finalScoredStocks env {} ≠ [] ∧
        runAnalysisWorkflow env = .ok (prepareResponse (finalScoredStocks env {})
          env.n env.market_regime env.with_news
          (if env.with_news then env.news_data_map else fun _ => none) env.as_of)) := by
  by_cases hpre : preScoredStocks env {} = []
  · left
    refine ⟨hpre, ?_⟩
    unfold runAnalysisWorkflow
    rw [if_pos hpre]
  · right
    refine ⟨hpre, ?_, by unfold runAnalysisWorkflow; rw [if_neg hpre]⟩
    -- every shortlisted code is scorable in the second pass
    have hmem_ok : ∀ c ∈ preSelectedCodes env {}, ∃ feats,
        (featuresMapOf env {}).lookup c = some feats ∧
        ¬(feats.length < FeatureConf.mom_long {} + 2 ∨
          (prevRow feats).value_traded.getD 0 <
            minTurnoverOf {} env.market_regime) := by
      intro c hc
      obtain ⟨s, hsmem, rfl⟩ := List.mem_map.mp hc
      have hs_pre : s ∈ preScoredStocks env {} :=
        (mem_sortDesc _ _ _).mp (List.mem_of_mem_take hsmem)
      have hs_pre' : ∃ a b, (a, b) ∈ featuresMapOf env {} ∧
          score_stock a ((env.names a).getD a) b
            (calculate_z_scores (prevRow b) (momStatsOf env {})) (some 0) 0 {}
            env.market_regime env.strategy = some s := by
        simpa [preScoredStocks] using hs_pre
      obtain ⟨a, b, hab_mem, hscore⟩ := hs_pre'
      have hcode : s.code = a := score_stock_code hscore
      obtain ⟨hcodes, hff⟩ := mem_featuresMapOf hab_mem
      have hlk : (featuresMapOf env {}).lookup a = some b :=
        lookup_featuresMapOf env {} a b hcodes hff
      refine ⟨b, by rw [hcode]; exact hlk, ?_⟩
      intro hcond
      have hnone := (score_stock_eq_none_iff a ((env.names a).getD a) b
        (calculate_z_scores (prevRow b) (momStatsOf env {})) (some 0) 0 {}
        env.market_regime env.strategy).mpr hcond
      rw [hscore] at hnone
      exact Option.noConfusion hnone
    -- the shortlist itself is nonempty
    have hsel_ne : preSelectedCodes env {} ≠ [] := by
      unfold preSelectedCodes
      intro hnil
      apply hpre
      have hlen := congrArg List.length hnil
      simp only [List.length_map, List.length_take, length_sortDesc,
        List.length_nil] at hlen
      have : (preScoredStocks env {}).length = 0 := by omega
      exact List.length_eq_zero.mp this
    obtain ⟨c0, rest, hsplit⟩ := List.exists_cons_of_ne_nil hsel_ne
    have hc0 : c0 ∈ preSelectedCodes env {} := by
      rw [hsplit]
      exact List.mem_cons_self _ _
    obtain ⟨feats0, hlk0, hcond0⟩ := hmem_ok c0 hc0
    -- the final pass keeps c0
    have hne : finalScoreFor (preSelectedCodes env {}) (featuresMapOf env {})
        (if env.with_news then env.news_data_map else fun _ => none)
        (momStatsOf env {}) env.names {} env.market_regime env.strategy
        env.pdStd c0 ≠ none := by
      rw [Ne, finalScoreFor_eq_none_iff, hlk0]
      simpa using hcond0
    obtain ⟨s0, hs0⟩ := Option.ne_none_iff_exists'.mp hne
    have hmem0 : s0 ∈ finalScoredStocks env {} := by
      unfold finalScoredStocks performFinalScoring
      exact List.mem_filterMap.mpr ⟨c0, hc0, hs0⟩
    exact List.ne_nil_of_mem hmem0

end Friendantial
